import Mathlib

/-!
Shallow embedding of the mlbf bytecode IR container and pattern matcher
(source file program.c: bf_program_create, bf_program_grow,
bf_program_append, bf_program_substitute, bf_program_match_sequence,
bf_program_map_ins_name).

Modelling choices, stated once here:
* The C buffer `ir` holds `capacity` allocated slots of which the first
  `size` are the logical program.  No operation ever reads a slot at index
  `size` or beyond (the matcher loop guard keeps `pos + i < size`, the
  substitute loop writes below `size`, append writes exactly at index
  `size` and then increments `size`).  We therefore represent the buffer
  by the list of its first `size` slots (so `size = ir.length`) together
  with the `capacity` counter; append becomes a list append.
* `realloc`/`calloc` failure is environmental and is modelled as success;
  the capacity-ceiling failure path of `bf_program_grow` is modelled
  exactly.
* `pos` has C type `int` and `size` has type `size_t`; the claims only
  concern non-negative positions and counts, so both are embedded as `Nat`.
* The 32-bit `argument` and `offset` fields are only ever copied and
  compared for equality, never subjected to arithmetic, so they are
  embedded as `Int` (no overflow is reachable).
-/

/-- Modelled from the spec: the `enum bf_opcode` tags (header program.h is
not in the sources); the spec gives the closed catalog in order
`NOP, IN, OUT, INC_V, DEC_V, ADD_V, SUB_V, INC_P, DEC_P, ADD_P, SUB_P,
BRANCH_Z, BRANCH_NZ, JMP, HALT, CLEAR, COPY, MUL`, embedded with the
default C enum numbering 0..17. -/
def BF_INS_NOP : Nat := 0

def BF_INS_IN : Nat := 1

def BF_INS_OUT : Nat := 2

def BF_INS_INC_V : Nat := 3

def BF_INS_DEC_V : Nat := 4

def BF_INS_ADD_V : Nat := 5

def BF_INS_SUB_V : Nat := 6

def BF_INS_INC_P : Nat := 7

def BF_INS_DEC_P : Nat := 8

def BF_INS_ADD_P : Nat := 9

def BF_INS_SUB_P : Nat := 10

def BF_INS_BRANCH_Z : Nat := 11

def BF_INS_BRANCH_NZ : Nat := 12

def BF_INS_JMP : Nat := 13

def BF_INS_HALT : Nat := 14

def BF_INS_CLEAR : Nat := 15

def BF_INS_COPY : Nat := 16

def BF_INS_MUL : Nat := 17

/-- Number of defined opcode tags in the catalog. -/
def BF_OPCODE_COUNT : Nat := 18

/-- The fixed-size instruction record `struct bf_instruction`
(opcode tag, signed 32-bit argument, signed 32-bit offset). -/
structure bf_instruction where
  opcode : Nat
  argument : Int
  offset : Int
deriving DecidableEq, Repr

/-- Zero record, the value `calloc` leaves in untouched slots; used only as
the (never reached, see the range arguments in the lemmas) default of
`List.getD`. -/
def bf_instruction_default : bf_instruction :=
  { opcode := BF_INS_NOP, argument := 0, offset := 0 }

/-- The pattern rule record `struct bf_pattern_rule`. -/
structure bf_pattern_rule where
  instruction : bf_instruction
  flags : Nat
deriving DecidableEq, Repr

/-- Modelled from the spec: the `BF_PATTERN_STRICT` flag bit (header
program.h is not in the sources); the spec only says `flags` is a bitset
with a STRICT bit, embedded as bit 0. -/
def BF_PATTERN_STRICT : Nat := 1

/-- Default rule record, used only as the `List.getD` default. -/
def bf_pattern_rule_default : bf_pattern_rule :=
  { instruction := bf_instruction_default, flags := 0 }

/-- Modelled from the spec: `bf_utils_check_flag` (utils.h is not in the
sources); tests whether the given flag bit is set in the bitset. -/
def bf_utils_check_flag (flags flag : Nat) : Bool :=
  flags &&& flag ≠ 0

/-- INSTRUCTION_ALLOC_COUNT, the allocation batch size. -/
def INSTRUCTION_ALLOC_COUNT : Nat := 1024

/-- BF_MAX_PROGRAM_SIZE, the 65536-slot addressing ceiling. -/
def BF_MAX_PROGRAM_SIZE : Nat := 65536

/-- The program container `struct bf_program`: the logical instruction
prefix of the buffer plus the allocated capacity. -/
structure bf_program where
  ir : List bf_instruction
  capacity : Nat
deriving DecidableEq, Repr

/-- The logical instruction count (field `size` of `struct bf_program`). -/
def bf_program.size (p : bf_program) : Nat := p.ir.length

/-- bf_program_create: a fresh empty program with one allocation batch of
capacity (the allocation-failure path yields no object and is not
modelled). -/
def bf_program_create : bf_program :=
  { ir := [], capacity := INSTRUCTION_ALLOC_COUNT }

/-- bf_program_grow: add one allocation batch to the capacity, clamping at
BF_MAX_PROGRAM_SIZE; fails (Bool `false`, program unchanged) when the
capacity cannot be raised. -/
def bf_program_grow (program : bf_program) : Bool × bf_program :=
  let new_capacity := program.capacity + INSTRUCTION_ALLOC_COUNT
  if new_capacity > BF_MAX_PROGRAM_SIZE then
    if program.capacity < BF_MAX_PROGRAM_SIZE then
      (true, { program with capacity := BF_MAX_PROGRAM_SIZE })
    else
      (false, program)
  else
    (true, { program with capacity := new_capacity })

/-- bf_program_append: grow first when `size >= capacity`, then store the
instruction at index `size` and increment `size`. -/
def bf_program_append (program : bf_program) (instruction : bf_instruction) :
    Bool × bf_program :=
  if program.size ≥ program.capacity then
    match bf_program_grow program with
    | (false, program1) => (false, program1)
    | (true, program1) => (true, { program1 with ir := program1.ir ++ [instruction] })
  else
    (true, { program with ir := program.ir ++ [instruction] })

/-- The write loop of bf_program_substitute:
`for (i = 0; i < size; i++) program->ir[pos + i] = ir[i];`
unrolled by recursion on the iteration count (the `n+1` case performs the
last write, at index `pos + n`). -/
def bf_ir_write (buf repl : List bf_instruction) (pos : Nat) :
    Nat → List bf_instruction
  | 0 => buf
  | n + 1 => (bf_ir_write buf repl pos n).set (pos + n) (repl.getD n bf_instruction_default)

/-- bf_program_substitute: overwrite the span `[pos, pos + size)` with the
first `size` replacement instructions; fails without mutation when
`pos + size >= program->size`. -/
def bf_program_substitute (program : bf_program) (ir : List bf_instruction)
    (pos size : Nat) : Bool × bf_program :=
  if pos + size ≥ program.size then
    (false, program)
  else
    (true, { program with ir := bf_ir_write program.ir ir pos size })

/-- The scan loop of bf_program_match_sequence, with state `i` (loop
counter), `real_iters` (rules satisfied) and `mut_size` (physical span,
grown past `size` by one per skipped NOP).  `none` models the early
`return 0` on an opcode or strict-argument mismatch; `some` carries the
state at normal loop exit.  The C locals `instr` and `rule` are inlined
at their two use sites.  The loop runs at most `p.size` iterations
(the guard forces `i < mut_size` and `pos + mut_size < p.size`, hence
`i < p.size`), so fuel `p.size` at entry `i = 0` is exact: when the fuel
reaches 0 the guard is already false and the fuel-0 base case coincides
with normal loop exit. -/
def bf_match_loop (p : bf_program) (rules : List bf_pattern_rule) (pos : Nat) :
    Nat → Nat → Nat → Nat → Option (Nat × Nat)
  | 0, _, real_iters, mut_size => some (real_iters, mut_size)
  | fuel + 1, i, real_iters, mut_size =>
    if i < mut_size ∧ pos + mut_size < p.size then
      if (p.ir.getD (pos + i) bf_instruction_default).opcode = BF_INS_NOP then
        bf_match_loop p rules pos fuel (i + 1) real_iters (mut_size + 1)
      else if (p.ir.getD (pos + i) bf_instruction_default).opcode ≠
          (rules.getD real_iters bf_pattern_rule_default).instruction.opcode then
        none
      else if bf_utils_check_flag (rules.getD real_iters bf_pattern_rule_default).flags
            BF_PATTERN_STRICT ∧
          (p.ir.getD (pos + i) bf_instruction_default).argument ≠
            (rules.getD real_iters bf_pattern_rule_default).instruction.argument then
        none
      else
        bf_match_loop p rules pos fuel (i + 1) (real_iters + 1) mut_size
    else
      some (real_iters, mut_size)

/-- bf_program_match_sequence: returns the physical span length on a full
match, else 0. -/
def bf_program_match_sequence (program : bf_program)
    (rules : List bf_pattern_rule) (pos size : Nat) : Nat :=
  if pos + size ≥ program.size ∨ size = 0 then
    0
  else
    match bf_match_loop program rules pos program.size 0 0 size with
    | none => 0
    | some (real_iters, mut_size) => if real_iters = size then mut_size else 0

/-- bf_program_map_ins_name: the mnemonic switch; unknown tags fall through
to the sentinel. -/
def bf_program_map_ins_name (opcode : Nat) : String :=
  if opcode = BF_INS_NOP then "NOP"
  else if opcode = BF_INS_IN then "IN"
  else if opcode = BF_INS_OUT then "OUT"
  else if opcode = BF_INS_INC_V then "INC_V"
  else if opcode = BF_INS_DEC_V then "DEC_V"
  else if opcode = BF_INS_ADD_V then "ADD_V"
  else if opcode = BF_INS_SUB_V then "SUB_V"
  else if opcode = BF_INS_INC_P then "INC_P"
  else if opcode = BF_INS_DEC_P then "DEC_P"
  else if opcode = BF_INS_ADD_P then "ADD_P"
  else if opcode = BF_INS_SUB_P then "SUB_P"
  else if opcode = BF_INS_BRANCH_Z then "BRANCH_Z"
  else if opcode = BF_INS_BRANCH_NZ then "BRANCH_NZ"
  else if opcode = BF_INS_JMP then "JMP"
  else if opcode = BF_INS_HALT then "HALT"
  else if opcode = BF_INS_CLEAR then "CLEAR"
  else if opcode = BF_INS_COPY then "COPY"
  else if opcode = BF_INS_MUL then "MUL"
  else "?"

/-- The container invariant of the spec: `length ≤ capacity ≤ 65536`. -/
def bf_program_inv (p : bf_program) : Prop :=
  p.size ≤ p.capacity ∧ p.capacity ≤ BF_MAX_PROGRAM_SIZE

/-- Program of the C1 example: `[ADD_V(1), NOP, NOP, JMP(5)]`. -/
def bf_c1_program : bf_program :=
  { ir := [bf_instruction.mk BF_INS_ADD_V 1 0, bf_instruction.mk BF_INS_NOP 0 0,
      bf_instruction.mk BF_INS_NOP 0 0, bf_instruction.mk BF_INS_JMP 5 0],
    capacity := INSTRUCTION_ALLOC_COUNT }

/-- Rules of the C1 example: `[{ADD_V, loose}, {JMP, loose}]`. -/
def bf_c1_rules : List bf_pattern_rule :=
  [bf_pattern_rule.mk (bf_instruction.mk BF_INS_ADD_V 0 0) 0,
    bf_pattern_rule.mk (bf_instruction.mk BF_INS_JMP 0 0) 0]

/-- Full program used to witness the append-at-ceiling conjunct of C7. -/
def bf_full_program : bf_program :=
  { ir := List.replicate 65536 bf_instruction_default, capacity := 65536 }

theorem bf_ir_write_length (buf repl : List bf_instruction) (pos : Nat) :
    ∀ n, (bf_ir_write buf repl pos n).length = buf.length := by
  intro n
  induction n with
  | zero => rfl
  | succ n ih => simp [bf_ir_write, List.length_set, ih]

theorem bf_ir_write_getElem_outside (buf repl : List bf_instruction) (pos : Nat) :
    ∀ n j, (j < pos ∨ pos + n ≤ j) →
      (bf_ir_write buf repl pos n)[j]? = buf[j]? := by
  intro n
  induction n with
  | zero => intro j _; rfl
  | succ n ih =>
    intro j hj
    have hne : pos + n ≠ j := by omega
    rw [bf_ir_write, List.getElem?_set_ne hne]
    exact ih j (by omega)

theorem bf_ir_write_getElem_inside (buf repl : List bf_instruction) (pos : Nat) :
    ∀ n j, pos ≤ j → j < pos + n → j < buf.length →
      (bf_ir_write buf repl pos n)[j]? =
        some (repl.getD (j - pos) bf_instruction_default) := by
  intro n
  induction n with
  | zero => intro j _ h2 _; omega
  | succ n ih =>
    intro j h1 h2 h3
    by_cases hj : j = pos + n
    · subst hj
      rw [bf_ir_write, List.getElem?_set_self (by rw [bf_ir_write_length]; omega)]
      congr 1
      congr 1
      omega
    · rw [bf_ir_write, List.getElem?_set_ne (by omega)]
      exact ih j h1 (by omega) h3

theorem bf_program_grow_eq (p : bf_program) :
    bf_program_grow p =
      if BF_MAX_PROGRAM_SIZE ≤ p.capacity then (false, p)
      else
        (true,
          { p with capacity := min (p.capacity + INSTRUCTION_ALLOC_COUNT) BF_MAX_PROGRAM_SIZE }) := by
  unfold bf_program_grow INSTRUCTION_ALLOC_COUNT BF_MAX_PROGRAM_SIZE
  by_cases h : 65536 ≤ p.capacity
  · rw [if_pos h, if_pos (by omega), if_neg (by omega)]
  · rw [if_neg h]
    by_cases h1 : p.capacity + 1024 > 65536
    · rw [if_pos h1, if_pos (by omega)]
      have hmin : (65536 : Nat) = min (p.capacity + 1024) 65536 := by omega
      rw [← hmin]
    · rw [if_neg h1]
      have hmin : p.capacity + 1024 = min (p.capacity + 1024) 65536 := by omega
      rw [← hmin]

theorem bf_program_append_eq (p : bf_program) (ins : bf_instruction) :
    bf_program_append p ins =
      if p.capacity ≤ p.size ∧ BF_MAX_PROGRAM_SIZE ≤ p.capacity then (false, p)
      else if p.capacity ≤ p.size then
        (true,
          { p with
            ir := p.ir ++ [ins],
            capacity := min (p.capacity + INSTRUCTION_ALLOC_COUNT) BF_MAX_PROGRAM_SIZE })
      else (true, { p with ir := p.ir ++ [ins] }) := by
  unfold bf_program_append
  rw [bf_program_grow_eq]
  by_cases hge : p.size ≥ p.capacity
  · rw [if_pos hge]
    by_cases hcap : BF_MAX_PROGRAM_SIZE ≤ p.capacity
    · rw [if_pos hcap, if_pos ⟨by omega, hcap⟩]
    · rw [if_neg hcap, if_neg (by rw [not_and_or]; right; omega), if_pos (by omega)]
  · rw [if_neg hge, if_neg (by rw [not_and_or]; left; omega), if_neg (by omega)]

/-- C4: bf_program_substitute with `pos + size >= length` fails and leaves
the program (buffer, length, capacity) completely unchanged. -/
theorem substitute_out_of_range_fails_unchanged (p : bf_program)
    (repl : List bf_instruction) (pos sz : Nat) (h : pos + sz ≥ p.size) :
    bf_program_substitute p repl pos sz = (false, p) := by
  unfold bf_program_substitute
  rw [if_pos h]

theorem substitute_out_of_range_fails_unchanged_witness :
    (0 : Nat) + 1 ≥ (bf_program.mk [bf_instruction_default] 1024).size ∧
    bf_program_substitute (bf_program.mk [bf_instruction_default] 1024) [] 0 1 =
      (false, bf_program.mk [bf_instruction_default] 1024) :=
  ⟨by decide,
    substitute_out_of_range_fails_unchanged
      (bf_program.mk [bf_instruction_default] 1024) [] 0 1 (by decide)⟩

/-- C8: bf_program_grow raises the capacity by one 1024-slot batch clamped
to 65536 when the capacity is below the ceiling, and fails without any
mutation when the capacity is already at (or beyond) the ceiling. -/
theorem grow_clamps_and_fails_at_ceiling (p : bf_program) :
    (p.capacity < BF_MAX_PROGRAM_SIZE →
      bf_program_grow p =
        (true,
          { p with
            capacity := min (p.capacity + INSTRUCTION_ALLOC_COUNT) BF_MAX_PROGRAM_SIZE })) ∧
    (BF_MAX_PROGRAM_SIZE ≤ p.capacity → bf_program_grow p = (false, p)) := by
  rw [bf_program_grow_eq]
  constructor
  · intro h
    rw [if_neg (by omega)]
  · intro h
    rw [if_pos h]

theorem grow_clamps_and_fails_at_ceiling_witness :
    ((bf_program.mk [] 65000).capacity < BF_MAX_PROGRAM_SIZE ∧
      bf_program_grow (bf_program.mk [] 65000) = (true, bf_program.mk [] 65536)) ∧
    (BF_MAX_PROGRAM_SIZE ≤ (bf_program.mk [] 65536).capacity ∧
      bf_program_grow (bf_program.mk [] 65536) = (false, bf_program.mk [] 65536)) :=
  ⟨⟨by decide, (grow_clamps_and_fails_at_ceiling (bf_program.mk [] 65000)).1 (by decide)⟩,
    ⟨by decide, (grow_clamps_and_fails_at_ceiling (bf_program.mk [] 65536)).2 (by decide)⟩⟩

/-- C9: bf_program_map_ins_name is total: each of the 18 defined tags maps
to a non-empty name, every other tag value maps to the sentinel "?". -/
theorem map_ins_name_total :
    (∀ t, t < BF_OPCODE_COUNT → bf_program_map_ins_name t ≠ "") ∧
    (∀ t, BF_OPCODE_COUNT ≤ t → bf_program_map_ins_name t = "?") := by
  constructor
  · have h : ∀ t, t < 18 → bf_program_map_ins_name t ≠ "" := by decide
    intro t ht
    exact h t (by unfold BF_OPCODE_COUNT at ht; omega)
  · intro t ht
    unfold BF_OPCODE_COUNT at ht
    unfold bf_program_map_ins_name BF_INS_NOP BF_INS_IN BF_INS_OUT BF_INS_INC_V
      BF_INS_DEC_V BF_INS_ADD_V BF_INS_SUB_V BF_INS_INC_P BF_INS_DEC_P
      BF_INS_ADD_P BF_INS_SUB_P BF_INS_BRANCH_Z BF_INS_BRANCH_NZ BF_INS_JMP
      BF_INS_HALT BF_INS_CLEAR BF_INS_COPY BF_INS_MUL
    repeat rw [if_neg (by omega)]

theorem map_ins_name_total_witness :
    ((13 : Nat) < BF_OPCODE_COUNT ∧ bf_program_map_ins_name 13 ≠ "") ∧
    (BF_OPCODE_COUNT ≤ (99 : Nat) ∧ bf_program_map_ins_name 99 = "?") :=
  ⟨⟨by decide, map_ins_name_total.1 13 (by decide)⟩,
    ⟨by decide, map_ins_name_total.2 99 (by decide)⟩⟩

/-- C5: an in-bounds bf_program_substitute succeeds, places the first `size`
replacement instructions at `[pos, pos+size)`, leaves every other slot
unchanged, and does not change length or capacity. -/
theorem substitute_in_bounds_correct (p : bf_program)
    (repl : List bf_instruction) (pos sz : Nat)
    (hin : pos + sz < p.size) (hrepl : sz ≤ repl.length) :
    (bf_program_substitute p repl pos sz).1 = true ∧
    (bf_program_substitute p repl pos sz).2.size = p.size ∧
    (bf_program_substitute p repl pos sz).2.capacity = p.capacity ∧
    (∀ j, pos ≤ j → j < pos + sz →
      (bf_program_substitute p repl pos sz).2.ir.getD j bf_instruction_default =
        repl.getD (j - pos) bf_instruction_default) ∧
    (∀ j, j < pos ∨ pos + sz ≤ j →
      (bf_program_substitute p repl pos sz).2.ir.getD j bf_instruction_default =
        p.ir.getD j bf_instruction_default) := by
  unfold bf_program_substitute
  rw [if_neg (by omega)]
  refine ⟨rfl, ?_, rfl, ?_, ?_⟩
  · show (bf_ir_write p.ir repl pos sz).length = p.ir.length
    exact bf_ir_write_length p.ir repl pos sz
  · intro j h1 h2
    rw [List.getD_eq_getElem?_getD,
      bf_ir_write_getElem_inside p.ir repl pos sz j h1 h2 (by unfold bf_program.size at hin; omega)]
    rfl
  · intro j hj
    rw [List.getD_eq_getElem?_getD, bf_ir_write_getElem_outside p.ir repl pos sz j hj,
      ← List.getD_eq_getElem?_getD]

theorem substitute_in_bounds_correct_witness :
    (0 : Nat) + 1 < (bf_program.mk [bf_instruction_default, bf_instruction_default] 1024).size ∧
    (1 : Nat) ≤ [bf_instruction.mk BF_INS_CLEAR 0 0].length ∧
    ((bf_program_substitute
        (bf_program.mk [bf_instruction_default, bf_instruction_default] 1024)
        [bf_instruction.mk BF_INS_CLEAR 0 0] 0 1).1 = true ∧
      (bf_program_substitute
        (bf_program.mk [bf_instruction_default, bf_instruction_default] 1024)
        [bf_instruction.mk BF_INS_CLEAR 0 0] 0 1).2.size =
        (bf_program.mk [bf_instruction_default, bf_instruction_default] 1024).size ∧
      (bf_program_substitute
        (bf_program.mk [bf_instruction_default, bf_instruction_default] 1024)
        [bf_instruction.mk BF_INS_CLEAR 0 0] 0 1).2.capacity =
        (bf_program.mk [bf_instruction_default, bf_instruction_default] 1024).capacity ∧
      (∀ j, 0 ≤ j → j < 0 + 1 →
        (bf_program_substitute
          (bf_program.mk [bf_instruction_default, bf_instruction_default] 1024)
          [bf_instruction.mk BF_INS_CLEAR 0 0] 0 1).2.ir.getD j bf_instruction_default =
          [bf_instruction.mk BF_INS_CLEAR 0 0].getD (j - 0) bf_instruction_default) ∧
      (∀ j, j < 0 ∨ 0 + 1 ≤ j →
        (bf_program_substitute
          (bf_program.mk [bf_instruction_default, bf_instruction_default] 1024)
          [bf_instruction.mk BF_INS_CLEAR 0 0] 0 1).2.ir.getD j bf_instruction_default =
          (bf_program.mk [bf_instruction_default, bf_instruction_default] 1024).ir.getD j
            bf_instruction_default)) :=
  ⟨by decide, by decide,
    substitute_in_bounds_correct
      (bf_program.mk [bf_instruction_default, bf_instruction_default] 1024)
      [bf_instruction.mk BF_INS_CLEAR 0 0] 0 1 (by decide) (by decide)⟩

/-- C6: bf_program_append either succeeds, with the length up by one, the
new instruction stored at the old length and all earlier slots unchanged,
or fails because the capacity ceiling was reached, with the program
unchanged. -/
theorem append_succeeds_or_fails_at_ceiling (p : bf_program) (ins : bf_instruction) :
    ((bf_program_append p ins).1 = true →
      (bf_program_append p ins).2.size = p.size + 1 ∧
      (bf_program_append p ins).2.ir.getD p.size bf_instruction_default = ins ∧
      (∀ j, j < p.size →
        (bf_program_append p ins).2.ir.getD j bf_instruction_default =
          p.ir.getD j bf_instruction_default)) ∧
    ((bf_program_append p ins).1 = false →
      bf_program_append p ins = (false, p) ∧ BF_MAX_PROGRAM_SIZE ≤ p.capacity) := by
  have hsucc : ∀ q : bf_program, q.ir = p.ir ++ [ins] →
      q.size = p.size + 1 ∧
      q.ir.getD p.size bf_instruction_default = ins ∧
      (∀ j, j < p.size →
        q.ir.getD j bf_instruction_default = p.ir.getD j bf_instruction_default) := by
    intro q hq
    refine ⟨?_, ?_, ?_⟩
    · show q.ir.length = p.ir.length + 1
      rw [hq, List.length_append, List.length_cons, List.length_nil]
    · rw [hq, List.getD_eq_getElem?_getD]
      show (p.ir ++ [ins])[p.ir.length]?.getD bf_instruction_default = ins
      rw [List.getElem?_concat_length]
      rfl
    · intro j hj
      rw [hq, List.getD_eq_getElem?_getD, List.getElem?_append_left hj,
        ← List.getD_eq_getElem?_getD]
  rw [bf_program_append_eq]
  by_cases h1 : p.capacity ≤ p.size ∧ BF_MAX_PROGRAM_SIZE ≤ p.capacity
  · rw [if_pos h1]
    exact ⟨fun h => by simp at h, fun _ => ⟨rfl, h1.2⟩⟩
  · rw [if_neg h1]
    by_cases h2 : p.capacity ≤ p.size
    · rw [if_pos h2]
      exact ⟨fun _ => hsucc _ rfl, fun h => by simp at h⟩
    · rw [if_neg h2]
      exact ⟨fun _ => hsucc _ rfl, fun h => by simp at h⟩

theorem append_succeeds_or_fails_at_ceiling_witness :
    (bf_program_append bf_program_create bf_instruction_default).1 = true ∧
    (bf_program_append bf_program_create bf_instruction_default).2.size =
      bf_program_create.size + 1 ∧
    (bf_program_append bf_program_create bf_instruction_default).2.ir.getD
      bf_program_create.size bf_instruction_default = bf_instruction_default :=
  ⟨by decide,
    ((append_succeeds_or_fails_at_ceiling bf_program_create bf_instruction_default).1
      (by decide)).1,
    ((append_succeeds_or_fails_at_ceiling bf_program_create bf_instruction_default).1
      (by decide)).2.1⟩

/-- C7: the invariant `length ≤ capacity ≤ 65536` holds for the fresh
program and is preserved by grow, append and substitute (the matcher does
not mutate the program); appending to a program holding 65536 instructions
fails with the program unchanged, and append never pushes the length past
65536. -/
theorem program_invariant_preserved :
    bf_program_inv bf_program_create ∧
    (∀ (p : bf_program) (ins : bf_instruction) (repl : List bf_instruction) (pos sz : Nat),
      bf_program_inv p →
      bf_program_inv (bf_program_grow p).2 ∧
      bf_program_inv (bf_program_append p ins).2 ∧
      bf_program_inv (bf_program_substitute p repl pos sz).2 ∧
      (bf_program_append p ins).2.size ≤ BF_MAX_PROGRAM_SIZE ∧
      (p.size = BF_MAX_PROGRAM_SIZE →
        bf_program_append p ins = (false, p))) := by
  constructor
  · exact ⟨by decide, by decide⟩
  · intro p ins repl pos sz hinv
    obtain ⟨hlc, hcm⟩ := hinv
    unfold bf_program_inv
    unfold bf_program.size at hlc ⊢
    unfold BF_MAX_PROGRAM_SIZE at hcm ⊢
    have hgrow : (bf_program_grow p).2.ir.length ≤ (bf_program_grow p).2.capacity ∧
        (bf_program_grow p).2.capacity ≤ 65536 := by
      rw [bf_program_grow_eq]
      unfold BF_MAX_PROGRAM_SIZE INSTRUCTION_ALLOC_COUNT
      by_cases h : (65536 : Nat) ≤ p.capacity
      · rw [if_pos h]
        exact ⟨hlc, hcm⟩
      · rw [if_neg h]
        constructor
        · show p.ir.length ≤ min (p.capacity + 1024) 65536
          omega
        · show min (p.capacity + 1024) 65536 ≤ 65536
          omega
    have happ : (bf_program_append p ins).2.ir.length ≤ (bf_program_append p ins).2.capacity ∧
        (bf_program_append p ins).2.capacity ≤ 65536 ∧
        (bf_program_append p ins).2.ir.length ≤ 65536 := by
      rw [bf_program_append_eq]
      unfold BF_MAX_PROGRAM_SIZE INSTRUCTION_ALLOC_COUNT
      by_cases h1 : p.capacity ≤ p.ir.length ∧ (65536 : Nat) ≤ p.capacity
      · rw [if_pos (show p.capacity ≤ bf_program.size p ∧ (65536 : Nat) ≤ p.capacity from h1)]
        exact ⟨hlc, hcm, show p.ir.length ≤ 65536 by omega⟩
      · rw [if_neg (show ¬(p.capacity ≤ bf_program.size p ∧ (65536 : Nat) ≤ p.capacity) from h1)]
        by_cases h2 : p.capacity ≤ p.ir.length
        · rw [if_pos (show p.capacity ≤ bf_program.size p from h2)]
          have hlen : (p.ir ++ [ins]).length = p.ir.length + 1 := by
            rw [List.length_append, List.length_cons, List.length_nil]
          refine ⟨?_, ?_, ?_⟩
          · show (p.ir ++ [ins]).length ≤ min (p.capacity + 1024) 65536
            rw [hlen]
            have hne : ¬((65536 : Nat) ≤ p.capacity) := fun hc => h1 ⟨h2, hc⟩
            omega
          · show min (p.capacity + 1024) 65536 ≤ 65536
            omega
          · show (p.ir ++ [ins]).length ≤ 65536
            rw [hlen]
            have hne : ¬((65536 : Nat) ≤ p.capacity) := fun hc => h1 ⟨h2, hc⟩
            omega
        · rw [if_neg (show ¬(p.capacity ≤ bf_program.size p) from h2)]
          have hlen : (p.ir ++ [ins]).length = p.ir.length + 1 := by
            rw [List.length_append, List.length_cons, List.length_nil]
          refine ⟨?_, hcm, ?_⟩
          · show (p.ir ++ [ins]).length ≤ p.capacity
            rw [hlen]
            omega
          · show (p.ir ++ [ins]).length ≤ 65536
            rw [hlen]
            omega
    have hsub : (bf_program_substitute p repl pos sz).2.ir.length ≤
          (bf_program_substitute p repl pos sz).2.capacity ∧
        (bf_program_substitute p repl pos sz).2.capacity ≤ 65536 := by
      unfold bf_program_substitute
      by_cases h : pos + sz ≥ p.ir.length
      · rw [if_pos (show pos + sz ≥ bf_program.size p from h)]
        exact ⟨hlc, hcm⟩
      · rw [if_neg (show ¬(pos + sz ≥ bf_program.size p) from h)]
        constructor
        · show (bf_ir_write p.ir repl pos sz).length ≤ p.capacity
          rw [bf_ir_write_length]
          exact hlc
        · exact hcm
    have hfail : p.ir.length = 65536 → bf_program_append p ins = (false, p) := by
      intro hfull
      rw [bf_program_append_eq,
        if_pos (show p.capacity ≤ bf_program.size p ∧ BF_MAX_PROGRAM_SIZE ≤ p.capacity from
          ⟨by show p.capacity ≤ p.ir.length; omega,
            by show (65536 : Nat) ≤ p.capacity; omega⟩)]
    exact ⟨hgrow, ⟨happ.1, happ.2.1⟩, hsub, happ.2.2, hfail⟩

theorem program_invariant_preserved_witness :
    bf_program_inv bf_full_program ∧
    bf_full_program.size = BF_MAX_PROGRAM_SIZE ∧
    bf_program_append bf_full_program bf_instruction_default = (false, bf_full_program) ∧
    bf_program_inv (bf_program_append bf_program_create bf_instruction_default).2 := by
  have hinvf : bf_program_inv bf_full_program := by
    constructor
    · show (List.replicate 65536 bf_instruction_default).length ≤ 65536
      rw [List.length_replicate]
    · show (65536 : Nat) ≤ BF_MAX_PROGRAM_SIZE
      unfold BF_MAX_PROGRAM_SIZE
      omega
  have hlenf : bf_full_program.size = BF_MAX_PROGRAM_SIZE := by
    show (List.replicate 65536 bf_instruction_default).length = BF_MAX_PROGRAM_SIZE
    rw [List.length_replicate]
    rfl
  refine ⟨hinvf, hlenf, ?_, ?_⟩
  · exact (program_invariant_preserved.2 bf_full_program bf_instruction_default [] 0 0
      hinvf).2.2.2.2 hlenf
  · exact (program_invariant_preserved.2 bf_program_create bf_instruction_default [] 0 0
      ⟨by decide, by decide⟩).2.1

/-- C1 counterexample: on the four-instruction program (logical length
exactly 4) the matcher returns 0, not 4: the loop guard
`pos + mut_size < size` stops the scan before the final JMP is reached
because the skipped NOPs push the span end to the program end. -/
theorem match_skip_nop_len4_returns_zero :
    bf_program_match_sequence bf_c1_program bf_c1_rules 0 2 = 0 ∧
    bf_program_match_sequence bf_c1_program bf_c1_rules 0 2 ≠ 4 := by
  decide

/-- C1 amended: with one further instruction after the span (logical length
5, any contents), the matcher does return the physical span 4, counting the
two skipped NOPs. -/
theorem match_skip_nop_span_four (x : bf_instruction) :
    bf_program_match_sequence
      { ir := [bf_instruction.mk BF_INS_ADD_V 1 0, bf_instruction.mk BF_INS_NOP 0 0,
          bf_instruction.mk BF_INS_NOP 0 0, bf_instruction.mk BF_INS_JMP 5 0, x],
        capacity := INSTRUCTION_ALLOC_COUNT }
      bf_c1_rules 0 2 = 4 := by
  rfl

/-- C3: in a match, a real (non-NOP) instruction satisfies a rule exactly
when the opcodes agree and, under the STRICT flag, the arguments agree;
without STRICT the argument is ignored.  Stated on a two-slot program so
the scan examines exactly the one instruction against the one rule. -/
theorem match_strict_loose_rule (instr pad : bf_instruction) (rule : bf_pattern_rule)
    (h : instr.opcode ≠ BF_INS_NOP) :
    bf_program_match_sequence
        { ir := [instr, pad], capacity := INSTRUCTION_ALLOC_COUNT } [rule] 0 1 ≠ 0 ↔
      (instr.opcode = rule.instruction.opcode ∧
        (bf_utils_check_flag rule.flags BF_PATTERN_STRICT = true →
          instr.argument = rule.instruction.argument)) := by
  by_cases hop : instr.opcode = rule.instruction.opcode
  · have hnop : ¬(rule.instruction.opcode = BF_INS_NOP) := hop ▸ h
    by_cases hstrict : bf_utils_check_flag rule.flags BF_PATTERN_STRICT = true
    · by_cases harg : instr.argument = rule.instruction.argument
      · have hval : bf_program_match_sequence
            { ir := [instr, pad], capacity := INSTRUCTION_ALLOC_COUNT } [rule] 0 1 = 1 := by
          simp [bf_program_match_sequence, bf_match_loop, bf_program.size, h, hnop, hop, hstrict, harg]
        rw [hval]
        simp [hop, harg]
      · have hval : bf_program_match_sequence
            { ir := [instr, pad], capacity := INSTRUCTION_ALLOC_COUNT } [rule] 0 1 = 0 := by
          simp [bf_program_match_sequence, bf_match_loop, bf_program.size, h, hnop, hop, hstrict, harg]
        rw [hval]
        simp [hstrict, harg]
    · have hval : bf_program_match_sequence
          { ir := [instr, pad], capacity := INSTRUCTION_ALLOC_COUNT } [rule] 0 1 = 1 := by
        simp [bf_program_match_sequence, bf_match_loop, bf_program.size, h, hnop, hop, hstrict]
      rw [hval]
      simp [hop, hstrict]
  · have hval : bf_program_match_sequence
        { ir := [instr, pad], capacity := INSTRUCTION_ALLOC_COUNT } [rule] 0 1 = 0 := by
      simp [bf_program_match_sequence, bf_match_loop, bf_program.size, h, hop]
    rw [hval]
    simp [hop]

theorem bf_match_loop_exit (p : bf_program) (rules : List bf_pattern_rule)
    (pos fuel i real ms : Nat) (h : ¬(i < ms ∧ pos + ms < p.size)) :
    bf_match_loop p rules pos fuel i real ms = some (real, ms) := by
  cases fuel with
  | zero => rfl
  | succ fuel =>
    unfold bf_match_loop
    rw [if_neg h]

theorem bf_match_loop_all_nop (p : bf_program) (rules : List bf_pattern_rule) (pos : Nat) :
    ∀ fuel i real ms r m,
      (∀ j, pos + i ≤ j → j < p.size →
        (p.ir.getD j bf_instruction_default).opcode = BF_INS_NOP) →
      bf_match_loop p rules pos fuel i real ms = some (r, m) → r = real := by
  intro fuel
  induction fuel with
  | zero =>
    intro i real ms r m hnop heq
    simp only [bf_match_loop, Option.some.injEq, Prod.mk.injEq] at heq
    omega
  | succ fuel ih =>
    intro i real ms r m hnop heq
    by_cases hc : i < ms ∧ pos + ms < p.size
    · have hpi : (p.ir.getD (pos + i) bf_instruction_default).opcode = BF_INS_NOP :=
        hnop (pos + i) (Nat.le_refl _) (by omega)
      unfold bf_match_loop at heq
      rw [if_pos hc, if_pos hpi] at heq
      exact ih (i + 1) real (ms + 1) r m (fun j hj1 hj2 => hnop j (by omega) hj2) heq
    · rw [bf_match_loop_exit p rules pos (fuel + 1) i real ms hc] at heq
      simp only [Option.some.injEq, Prod.mk.injEq] at heq
      omega

theorem bf_match_loop_one_real (p : bf_program) (rules : List bf_pattern_rule)
    (pos k : Nat) :
    ∀ fuel i real ms r m,
      (∀ j, pos + i ≤ j → j < p.size → j ≠ k →
        (p.ir.getD j bf_instruction_default).opcode = BF_INS_NOP) →
      bf_match_loop p rules pos fuel i real ms = some (r, m) → r ≤ real + 1 := by
  intro fuel
  induction fuel with
  | zero =>
    intro i real ms r m hnop heq
    simp only [bf_match_loop, Option.some.injEq, Prod.mk.injEq] at heq
    omega
  | succ fuel ih =>
    intro i real ms r m hnop heq
    by_cases hc : i < ms ∧ pos + ms < p.size
    · unfold bf_match_loop at heq
      rw [if_pos hc] at heq
      by_cases hnopi : (p.ir.getD (pos + i) bf_instruction_default).opcode = BF_INS_NOP
      · rw [if_pos hnopi] at heq
        exact ih (i + 1) real (ms + 1) r m (fun j hj1 hj2 hj3 => hnop j (by omega) hj2 hj3) heq
      · have hk : pos + i = k := by
          by_contra hne
          exact hnopi (hnop (pos + i) (Nat.le_refl _) (by omega) hne)
        rw [if_neg hnopi] at heq
        by_cases hop : (p.ir.getD (pos + i) bf_instruction_default).opcode ≠
            (rules.getD real bf_pattern_rule_default).instruction.opcode
        · rw [if_pos hop] at heq
          exact absurd heq (by simp)
        · rw [if_neg hop] at heq
          by_cases hstrict : bf_utils_check_flag
                (rules.getD real bf_pattern_rule_default).flags BF_PATTERN_STRICT = true ∧
              (p.ir.getD (pos + i) bf_instruction_default).argument ≠
                (rules.getD real bf_pattern_rule_default).instruction.argument
          · rw [if_pos hstrict] at heq
            exact absurd heq (by simp)
          · rw [if_neg hstrict] at heq
            have hrest := bf_match_loop_all_nop p rules pos fuel (i + 1) (real + 1) ms r m
              (fun j hj1 hj2 => hnop j (by omega) hj2 (by omega)) heq
            omega
    · rw [bf_match_loop_exit p rules pos (fuel + 1) i real ms hc] at heq
      simp only [Option.some.injEq, Prod.mk.injEq] at heq
      omega

/-- C2: with two rules to satisfy but at most one real (non-NOP)
instruction in the scanned suffix (slot `k`; every other slot from `pos` on
is a NOP), the matcher returns 0: trailing NOPs past the last satisfied
rule never produce a nonzero match. -/
theorem match_two_rules_one_real_returns_zero (p : bf_program)
    (rules : List bf_pattern_rule) (pos k : Nat)
    (hr : rules.length = 2) (hk1 : pos ≤ k)
    (hk2 : (p.ir.getD k bf_instruction_default).opcode ≠ BF_INS_NOP)
    (hnop : ∀ j, j < p.size → pos ≤ j → j ≠ k →
      (p.ir.getD j bf_instruction_default).opcode = BF_INS_NOP) :
    bf_program_match_sequence p rules pos 2 = 0 := by
  unfold bf_program_match_sequence
  by_cases hg : pos + 2 ≥ p.size ∨ (2 : Nat) = 0
  · rw [if_pos hg]
  · rw [if_neg hg]
    cases heq : bf_match_loop p rules pos p.size 0 0 2 with
    | none => rfl
    | some rm =>
      obtain ⟨r, m⟩ := rm
      have hle : r ≤ 0 + 1 := bf_match_loop_one_real p rules pos k p.size 0 0 2 r m
        (fun j hj1 hj2 hj3 => hnop j hj2 (by omega) hj3) heq
      show (if r = 2 then m else 0) = 0
      rw [if_neg (by omega)]

theorem match_two_rules_one_real_returns_zero_witness :
    bf_c1_rules.length = 2 ∧
    (0 : Nat) ≤ 0 ∧
    ((bf_program.mk [bf_instruction.mk BF_INS_ADD_V 1 0, bf_instruction.mk BF_INS_NOP 0 0,
        bf_instruction.mk BF_INS_NOP 0 0, bf_instruction.mk BF_INS_NOP 0 0]
        1024).ir.getD 0 bf_instruction_default).opcode ≠ BF_INS_NOP ∧
    bf_program_match_sequence
      (bf_program.mk [bf_instruction.mk BF_INS_ADD_V 1 0, bf_instruction.mk BF_INS_NOP 0 0,
        bf_instruction.mk BF_INS_NOP 0 0, bf_instruction.mk BF_INS_NOP 0 0] 1024)
      bf_c1_rules 0 2 = 0 :=
  ⟨by decide, by decide, by decide,
    match_two_rules_one_real_returns_zero
      (bf_program.mk [bf_instruction.mk BF_INS_ADD_V 1 0, bf_instruction.mk BF_INS_NOP 0 0,
        bf_instruction.mk BF_INS_NOP 0 0, bf_instruction.mk BF_INS_NOP 0 0] 1024)
      bf_c1_rules 0 0 (by decide) (by decide) (by decide) (by decide)⟩

theorem match_strict_loose_rule_witness :
    (bf_instruction.mk BF_INS_ADD_V 3 0).opcode ≠ BF_INS_NOP ∧
    (bf_program_match_sequence
        { ir := [bf_instruction.mk BF_INS_ADD_V 3 0, bf_instruction.mk BF_INS_HALT 0 0],
          capacity := INSTRUCTION_ALLOC_COUNT }
        [bf_pattern_rule.mk (bf_instruction.mk BF_INS_ADD_V 3 0) 1] 0 1 ≠ 0 ↔
      ((bf_instruction.mk BF_INS_ADD_V 3 0).opcode =
          (bf_pattern_rule.mk (bf_instruction.mk BF_INS_ADD_V 3 0) 1).instruction.opcode ∧
        (bf_utils_check_flag (bf_pattern_rule.mk (bf_instruction.mk BF_INS_ADD_V 3 0) 1).flags
            BF_PATTERN_STRICT = true →
          (bf_instruction.mk BF_INS_ADD_V 3 0).argument =
            (bf_pattern_rule.mk (bf_instruction.mk BF_INS_ADD_V 3 0) 1).instruction.argument))) :=
  ⟨by decide,
    match_strict_loose_rule (bf_instruction.mk BF_INS_ADD_V 3 0)
      (bf_instruction.mk BF_INS_HALT 0 0)
      (bf_pattern_rule.mk (bf_instruction.mk BF_INS_ADD_V 3 0) 1) (by decide)⟩

theorem bf_match_loop_full_match (p : bf_program) (rules : List bf_pattern_rule)
    (pos size : Nat) :
    ∀ fuel i real ms m, i + size = ms + real → real < size →
      bf_match_loop p rules pos fuel i real ms = some (size, m) →
      pos + m < p.size ∧
        (p.ir.getD (pos + m - 1) bf_instruction_default).opcode ≠ BF_INS_NOP := by
  intro fuel
  induction fuel with
  | zero =>
    intro i real ms m hinv hlt heq
    simp only [bf_match_loop, Option.some.injEq, Prod.mk.injEq] at heq
    omega
  | succ fuel ih =>
    intro i real ms m hinv hlt heq
    by_cases hc : i < ms ∧ pos + ms < p.size
    · unfold bf_match_loop at heq
      rw [if_pos hc] at heq
      by_cases hnopi : (p.ir.getD (pos + i) bf_instruction_default).opcode = BF_INS_NOP
      · rw [if_pos hnopi] at heq
        exact ih (i + 1) real (ms + 1) m (by omega) hlt heq
      · rw [if_neg hnopi] at heq
        by_cases hop : (p.ir.getD (pos + i) bf_instruction_default).opcode ≠
            (rules.getD real bf_pattern_rule_default).instruction.opcode
        · rw [if_pos hop] at heq
          exact absurd heq (by simp)
        · rw [if_neg hop] at heq
          by_cases hstrict : bf_utils_check_flag
                (rules.getD real bf_pattern_rule_default).flags BF_PATTERN_STRICT = true ∧
              (p.ir.getD (pos + i) bf_instruction_default).argument ≠
                (rules.getD real bf_pattern_rule_default).instruction.argument
          · rw [if_pos hstrict] at heq
            exact absurd heq (by simp)
          · rw [if_neg hstrict] at heq
            by_cases hlast : real + 1 = size
            · rw [bf_match_loop_exit p rules pos fuel (i + 1) (real + 1) ms
                (by omega)] at heq
              simp only [Option.some.injEq, Prod.mk.injEq] at heq
              obtain ⟨hr1, hm1⟩ := heq
              constructor
              · omega
              · have hpi : pos + m - 1 = pos + i := by omega
                rw [hpi]
                exact hnopi
            · exact ih (i + 1) (real + 1) ms m (by omega) (by omega) heq
    · rw [bf_match_loop_exit p rules pos (fuel + 1) i real ms hc] at heq
      simp only [Option.some.injEq, Prod.mk.injEq] at heq
      omega

/-- C10: a nonzero span n returned by bf_program_match_sequence satisfies
`pos + n < length`, ends on a real (non-NOP) instruction at index
`pos + n - 1`, and is accepted by the bounds check of a subsequent
bf_program_substitute at `pos` with size n, which therefore succeeds. -/
theorem match_nonzero_span_substitutable (p : bf_program)
    (rules : List bf_pattern_rule) (pos size : Nat) (repl : List bf_instruction)
    (h : bf_program_match_sequence p rules pos size ≠ 0) :
    pos + bf_program_match_sequence p rules pos size < p.size ∧
    (p.ir.getD (pos + bf_program_match_sequence p rules pos size - 1)
        bf_instruction_default).opcode ≠ BF_INS_NOP ∧
    (bf_program_substitute p repl pos
        (bf_program_match_sequence p rules pos size)).1 = true := by
  by_cases hg : pos + size ≥ p.size ∨ size = 0
  · exfalso
    apply h
    unfold bf_program_match_sequence
    rw [if_pos hg]
  · have hg2 := not_or.mp hg
    cases heq : bf_match_loop p rules pos p.size 0 0 size with
    | none =>
      exfalso
      apply h
      unfold bf_program_match_sequence
      rw [if_neg hg, heq]
    | some rm =>
      obtain ⟨r, m⟩ := rm
      have hms : bf_program_match_sequence p rules pos size =
          if r = size then m else 0 := by
        unfold bf_program_match_sequence
        rw [if_neg hg, heq]
      by_cases hr : r = size
      · rw [hms, if_pos hr]
        subst hr
        have hmain := bf_match_loop_full_match p rules pos r p.size 0 0 r m
          (by omega) (by omega) heq
        refine ⟨hmain.1, hmain.2, ?_⟩
        unfold bf_program_substitute
        rw [if_neg (by omega)]
      · exfalso
        apply h
        rw [hms, if_neg hr]

theorem match_nonzero_span_substitutable_witness :
    bf_program_match_sequence
        { ir := [bf_instruction.mk BF_INS_ADD_V 1 0, bf_instruction.mk BF_INS_HALT 0 0],
          capacity := 1024 }
        [bf_pattern_rule.mk (bf_instruction.mk BF_INS_ADD_V 0 0) 0] 0 1 ≠ 0 ∧
    ((0 : Nat) + bf_program_match_sequence
        { ir := [bf_instruction.mk BF_INS_ADD_V 1 0, bf_instruction.mk BF_INS_HALT 0 0],
          capacity := 1024 }
        [bf_pattern_rule.mk (bf_instruction.mk BF_INS_ADD_V 0 0) 0] 0 1 <
        (bf_program.mk [bf_instruction.mk BF_INS_ADD_V 1 0, bf_instruction.mk BF_INS_HALT 0 0]
          1024).size ∧
      ((bf_program.mk [bf_instruction.mk BF_INS_ADD_V 1 0, bf_instruction.mk BF_INS_HALT 0 0]
          1024).ir.getD
          (0 + bf_program_match_sequence
            { ir := [bf_instruction.mk BF_INS_ADD_V 1 0, bf_instruction.mk BF_INS_HALT 0 0],
              capacity := 1024 }
            [bf_pattern_rule.mk (bf_instruction.mk BF_INS_ADD_V 0 0) 0] 0 1 - 1)
          bf_instruction_default).opcode ≠ BF_INS_NOP ∧
      (bf_program_substitute
          (bf_program.mk [bf_instruction.mk BF_INS_ADD_V 1 0, bf_instruction.mk BF_INS_HALT 0 0]
            1024)
          [bf_instruction.mk BF_INS_CLEAR 0 0] 0
          (bf_program_match_sequence
            { ir := [bf_instruction.mk BF_INS_ADD_V 1 0, bf_instruction.mk BF_INS_HALT 0 0],
              capacity := 1024 }
            [bf_pattern_rule.mk (bf_instruction.mk BF_INS_ADD_V 0 0) 0] 0 1)).1 = true) :=
  ⟨by decide,
    match_nonzero_span_substitutable
      (bf_program.mk [bf_instruction.mk BF_INS_ADD_V 1 0, bf_instruction.mk BF_INS_HALT 0 0]
        1024)
      [bf_pattern_rule.mk (bf_instruction.mk BF_INS_ADD_V 0 0) 0] 0 1
      [bf_instruction.mk BF_INS_CLEAR 0 0] (by decide)⟩
